/-
Verification of the correctness-evaluation pipeline of the
edge-intelligence benchmarking repository.

The development shallowly embeds the decision logic of
`scripts/correctness_checkers.py` (category classification, per-category
correctness heuristics, run aggregation, summary construction) and the
`correctness_summary.json` builder of `scripts/model_runner_baseline.py`.

Python strings are modelled as Lean `String` (a list of characters);
`str.lower` is modelled character-wise (ASCII case folding; exotic Unicode
case foldings are out of scope), `str.strip`/`str.split` use Python's
ASCII whitespace set, and `in` is contiguous-substring containment.
`json.loads` is modelled by an executable recursive-descent recogniser of
Python's JSON grammar (strict strings, JSON numbers, and the `NaN`,
`Infinity`, `-Infinity` constants accepted by default); an exception in
`json.loads` corresponds to the recogniser returning failure, so
`safe_json_load` returns an `Option`.
-/
import Mathlib

namespace Checkers

/-- Python `str.isspace` characters relevant to `strip`/`split`
(space, tab, newline, carriage return, vertical tab, form feed). -/
def pyIsSpace (c : Char) : Bool :=
  c = ' ' || c = '\t' || c = '\n' || c = '\r' || c = '\x0b' || c = '\x0c'

/-- Python `str.lower`, modelled character-wise (ASCII case folding). -/
def pyLower (s : String) : String :=
  String.mk (s.toList.map Char.toLower)

/-- Remove leading and trailing whitespace from a character list. -/
def stripList (l : List Char) : List Char :=
  ((l.dropWhile pyIsSpace).reverse.dropWhile pyIsSpace).reverse

/-- Python `str.strip()` with no arguments. -/
def pyStrip (s : String) : String :=
  String.mk (stripList s.toList)

/-- Worker for `pySplit`: split on whitespace runs, discarding empties;
`acc` holds the current word reversed. -/
def splitAux : List Char → List Char → List String
  | [], acc => if acc.isEmpty then [] else [String.mk acc.reverse]
  | c :: cs, acc =>
    if pyIsSpace c then
      if acc.isEmpty then splitAux cs []
      else String.mk acc.reverse :: splitAux cs []
    else splitAux cs (c :: acc)

/-- Python `str.split()` with no arguments. -/
def pySplit (s : String) : List String :=
  splitAux s.toList []

/-- `leadsWith n l` : the list `n` is an initial segment of `l`. -/
def leadsWith : List Char → List Char → Bool
  | [], _ => true
  | _ :: _, [] => false
  | a :: as, b :: bs => a = b && leadsWith as bs

/-- `containsSub n l` : `n` occurs as a contiguous sublist of `l`. -/
def containsSub (n : List Char) : List Char → Bool
  | [] => leadsWith n []
  | c :: cs => leadsWith n (c :: cs) || containsSub n cs

/-- Python `needle in hay` on strings: contiguous substring containment. -/
def strContains (hay needle : String) : Bool :=
  containsSub needle.toList hay.toList

/-! ### Model of Python `json.loads` (success/failure only)

The `json` module accepts a single JSON value surrounded by JSON
whitespace (space, tab, newline, carriage return).  Strings are strict
(unescaped control characters rejected), numbers follow the JSON grammar,
and the constants `NaN`, `Infinity`, `-Infinity` are accepted by default.
The recognisers consume a prefix and return the unconsumed remainder, or
`none` on a syntax error. -/

/-- JSON whitespace (narrower than Python `str.strip`'s set). -/
def jsonWs (c : Char) : Bool :=
  c = ' ' || c = '\t' || c = '\n' || c = '\r'

/-- Skip JSON whitespace. -/
def skipJsonWs (l : List Char) : List Char :=
  l.dropWhile jsonWs

/-- Hexadecimal digit, for `\uXXXX` escapes. -/
def hexDigit (c : Char) : Bool :=
  c.isDigit || ('a' ≤ c && c ≤ 'f') || ('A' ≤ c && c ≤ 'F')

/-- Recognise the body of a JSON string after the opening quote.
Fuel bounds recursion; one unit per consumed escape or character. -/
def parseStrBody : Nat → List Char → Option (List Char)
  | 0, _ => none
  | _ + 1, [] => none
  | fuel + 1, c :: rest =>
    if c = '"' then some rest
    else if c = '\\' then
      match rest with
      | [] => none
      | e :: rest2 =>
        if e = 'u' then
          match rest2 with
          | a :: b :: c2 :: d :: rest3 =>
            if hexDigit a && hexDigit b && hexDigit c2 && hexDigit d then
              parseStrBody fuel rest3
            else none
          | _ => none
        else if e = '"' || e = '\\' || e = '/' || e = 'b' || e = 'f' ||
                e = 'n' || e = 'r' || e = 't' then
          parseStrBody fuel rest2
        else none
    else if c.toNat < 32 then none
    else parseStrBody fuel rest

/-- Consume an exact literal; `none` if the input does not start with it. -/
def dropLit : List Char → List Char → Option (List Char)
  | [], l => some l
  | c :: cs, l =>
    match l with
    | d :: ds => if c = d then dropLit cs ds else none
    | [] => none

/-- After the integer part of a JSON number, consume an optional fraction
and exponent exactly as the `json` module's number regex does: a `.` or
`e` not followed by a digit is left unconsumed. -/
def afterIntPart (l : List Char) : List Char :=
  let l1 := match l with
    | '.' :: r =>
      match r with
      | d :: _ => if d.isDigit then r.dropWhile Char.isDigit else l
      | [] => l
    | _ => l
  match l1 with
  | e :: r =>
    if e = 'e' || e = 'E' then
      let r2 := match r with
        | s :: r3 => if s = '+' || s = '-' then r3 else r
        | [] => r
      match r2 with
      | d :: _ => if d.isDigit then r2.dropWhile Char.isDigit else l1
      | [] => l1
    else l1
  | [] => l1

/-- Recognise an unsigned JSON number (`0` or a nonzero-led digit run,
then optional fraction/exponent). -/
def parseNum : List Char → Option (List Char)
  | [] => none
  | c :: rest =>
    if c = '0' then some (afterIntPart rest)
    else if c.isDigit then some (afterIntPart (rest.dropWhile Char.isDigit))
    else none

mutual

/-- Recognise one JSON value.  Fuel bounds the mutual recursion; each
unit of fuel corresponds to at least one consumed character. -/
def parseValue : Nat → List Char → Option (List Char)
  | 0, _ => none
  | fuel + 1, l =>
    match l with
    | [] => none
    | c :: rest =>
      if c = '{' then
        match skipJsonWs rest with
        | '}' :: r => some r
        | l1 => parseMembers fuel l1
      else if c = '[' then
        match skipJsonWs rest with
        | ']' :: r => some r
        | l1 => parseElems fuel l1
      else if c = '"' then parseStrBody (rest.length + 1) rest
      else if c = 't' then dropLit ['r', 'u', 'e'] rest
      else if c = 'f' then dropLit ['a', 'l', 's', 'e'] rest
      else if c = 'n' then dropLit ['u', 'l', 'l'] rest
      else if c = 'N' then dropLit ['a', 'N'] rest
      else if c = 'I' then dropLit ['n', 'f', 'i', 'n', 'i', 't', 'y'] rest
      else if c = '-' then
        match rest with
        | 'I' :: r2 => dropLit ['n', 'f', 'i', 'n', 'i', 't', 'y'] r2
        | _ => parseNum rest
      else if c.isDigit then parseNum l
      else none

/-- Recognise the members of a nonempty JSON object, up to and including
the closing brace. -/
def parseMembers : Nat → List Char → Option (List Char)
  | 0, _ => none
  | fuel + 1, l =>
    match l with
    | [] => none
    | c :: rest =>
      if c = '"' then
        match parseStrBody (rest.length + 1) rest with
        | none => none
        | some r1 =>
          match skipJsonWs r1 with
          | ':' :: r2 =>
            match parseValue fuel (skipJsonWs r2) with
            | none => none
            | some r3 =>
              match skipJsonWs r3 with
              | '}' :: r4 => some r4
              | ',' :: r4 => parseMembers fuel (skipJsonWs r4)
              | _ => none
          | _ => none
      else none

/-- Recognise the elements of a nonempty JSON array, up to and including
the closing bracket. -/
def parseElems : Nat → List Char → Option (List Char)
  | 0, _ => none
  | fuel + 1, l =>
    match parseValue fuel l with
    | none => none
    | some r1 =>
      match skipJsonWs r1 with
      | ']' :: r2 => some r2
      | ',' :: r2 => parseElems fuel (skipJsonWs r2)
      | _ => none

end

/-- Whether `json.loads` succeeds on `s`: one value, surrounded only by
JSON whitespace. -/
def json_loads_ok (s : String) : Bool :=
  let l := skipJsonWs s.toList
  match parseValue (l.length + 1) l with
  | some r => (skipJsonWs r).isEmpty
  | none => false

/-- `safe_json_load` from the source: `json.loads` wrapped so that an
exception turns into `None`.  The model only records success/failure. -/
def safe_json_load (s : String) : Option Unit :=
  if json_loads_ok s then some () else none

/-- `looks_like_json` from the source: after `strip()`, starts with
`{` or `[`. -/
def looks_like_json (text : String) : Bool :=
  match (pyStrip text).toList with
  | [] => false
  | c :: _ => c = '{' || c = '['

/-- `is_math_expression` from the source: `re.search` of the character
class `[0-9+\-*/=]` finds at least one character. -/
def is_math_expression (text : String) : Bool :=
  text.toList.any (fun c =>
    c.isDigit || c = '+' || c = '-' || c = '*' || c = '/' || c = '=')

/-- The closed category enumeration produced by `evaluate_row` (the
source uses the strings "math", "code", "json", "writing", "general"). -/
inductive Category where
  | math
  | code
  | json
  | writing
  | general
deriving DecidableEq

/-- The dict returned by `evaluate_row`: keys `category`, `correct`,
`output_len`. -/
structure EvalResult where
  category : Category
  correct : Bool
  output_len : Nat
deriving DecidableEq

/-- `evaluate_row(prompt, output)` from the source.  The locals of the
Python function are inlined: `p_lower = prompt.lower()` is
`pyLower prompt` and `out_lower = output.lower().strip()` is
`pyStrip (pyLower output)`; `output_len = len(out_lower.split())`. -/
def evaluate_row (prompt output : String) : EvalResult :=
  if strContains (pyLower prompt) "derivative" ||
     strContains (pyLower prompt) "integral" ||
     strContains (pyLower prompt) "solve" then
    { category := .math,
      correct :=
        (["x", "y", "=", "dx", "dy", "6x", "2x"].any
          (fun sym => strContains (pyStrip (pyLower output)) sym)) ||
        is_math_expression (pyStrip (pyLower output)),
      output_len := (pySplit (pyStrip (pyLower output))).length }
  else if strContains (pyLower prompt) "python" ||
          strContains (pyLower prompt) "code" ||
          strContains (pyLower prompt) "function" then
    { category := .code,
      correct :=
        ["def ", "return", "for ", "while "].any
          (fun k => strContains (pyStrip (pyLower output)) k),
      output_len := (pySplit (pyStrip (pyLower output))).length }
  else if strContains (pyLower prompt) "json" ||
          strContains (pyLower prompt) "object" ||
          strContains (pyLower prompt) "key" then
    { category := .json,
      correct :=
        if looks_like_json output then (safe_json_load output).isSome
        else false,
      output_len := (pySplit (pyStrip (pyLower output))).length }
  else if strContains (pyLower prompt) "story" ||
          strContains (pyLower prompt) "write" ||
          strContains (pyLower prompt) "poem" then
    { category := .writing,
      correct :=
        decide ((pySplit (pyStrip (pyLower output))).length > 10) &&
        strContains (pyStrip (pyLower output)) ".",
      output_len := (pySplit (pyStrip (pyLower output))).length }
  else
    { category := .general,
      correct :=
        decide ((pyStrip (pyLower output)).length > 5) &&
        ((pySplit (pyLower prompt)).take 3).any
          (fun w => strContains (pyStrip (pyLower output)) w),
      output_len := (pySplit (pyStrip (pyLower output))).length }

example : evaluate_row "Please write a python function" "x" =
    ⟨.code, false, 1⟩ := by decide

example : evaluate_row "Solve for x" "42" = ⟨.math, true, 1⟩ := by decide

example : evaluate_row "Return a json object" "[1, 2]" =
    ⟨.json, true, 2⟩ := by decide

example : evaluate_row "Return a json object" "[1, 2" =
    ⟨.json, false, 2⟩ := by decide

example : evaluate_row "a b c" "banana" = ⟨.general, true, 1⟩ := by decide

/-! ### Run aggregation (`main` of `correctness_checkers.py`, lines 105-119)

`category_stats` is a Python dict keyed by the category string; it is
modelled as an insertion-ordered association list from `Category` to
`(total, correct)` pairs, matching `dict.setdefault` plus in-place
increments. -/

/-- One `setdefault` + increment step on `category_stats`:
`total += 1`, and `correct += 1` when the row was correct. -/
def updateStats (l : List (Category × Nat × Nat)) (c : Category)
    (isCorrect : Bool) : List (Category × Nat × Nat) :=
  match l with
  | [] => [(c, 1, if isCorrect then 1 else 0)]
  | (k, t, cr) :: rest =>
    if k = c then (k, t + 1, if isCorrect then cr + 1 else cr) :: rest
    else (k, t, cr) :: updateStats rest c isCorrect

/-- The loop state of `main`: the global `correct` counter and
`category_stats` (`total` is just the row count). -/
structure Agg where
  correct : Nat
  stats : List (Category × Nat × Nat)
deriving DecidableEq

/-- One iteration of the aggregation loop over a `(prompt, output)` row. -/
def stepAgg (a : Agg) (row : String × String) : Agg :=
  let res := evaluate_row row.1 row.2
  { correct := if res.correct then a.correct + 1 else a.correct,
    stats := updateStats a.stats res.category res.correct }

/-- The whole aggregation loop of `main` over the CSV rows. -/
def runAgg (rows : List (String × String)) : Agg :=
  rows.foldl stepAgg ⟨0, []⟩

/-- Dict lookup on the modelled `category_stats`. -/
def lookupStats : List (Category × Nat × Nat) → Category → Option (Nat × Nat)
  | [], _ => none
  | (k, t, cr) :: rest, q =>
    if k = q then some (t, cr) else lookupStats rest q

/-- Number of rows whose prompt classifies as `c`. -/
def catTotal (rows : List (String × String)) (c : Category) : Nat :=
  (rows.filter (fun r => (evaluate_row r.1 r.2).category = c)).length

/-- Number of rows whose prompt classifies as `c` and whose output is
judged correct. -/
def catCorrect (rows : List (String × String)) (c : Category) : Nat :=
  (rows.filter (fun r =>
    (evaluate_row r.1 r.2).category = c ∧
    (evaluate_row r.1 r.2).correct = true)).length

/-- Number of rows judged correct (the global `correct` counter). -/
def countCorrect (rows : List (String × String)) : Nat :=
  (rows.filter (fun r => (evaluate_row r.1 r.2).correct = true)).length

/-! ### Summary construction (`main` lines 121-137, and the
`correctness_summary.json` builder of `model_runner_baseline.py`,
lines 158-183) -/

/-- JSON-like values as built by the summary dict literals.  Floats are
modelled as exact rationals. -/
inductive JVal where
  | s (v : String)
  | n (v : Nat)
  | q (v : ℚ)
  | obj (fields : List (String × JVal))

/-- Round-half-even to an integer, the rounding used by Python `round`
(modulo binary floating-point representation, which is not modelled). -/
def roundHalfEven (x : ℚ) : Int :=
  if x - Int.floor x < 1 / 2 then Int.floor x
  else if x - Int.floor x > 1 / 2 then Int.floor x + 1
  else if Int.floor x % 2 = 0 then Int.floor x else Int.floor x + 1

/-- Python `round(x, 2)` on the modelled rationals. -/
def pyRound2 (x : ℚ) : ℚ :=
  (roundHalfEven (x * 100) : ℚ) / 100

/-- `round((correct / total) * 100, 2)`. -/
def accuracyPercent (correct total : Nat) : ℚ :=
  pyRound2 ((correct : ℚ) / (total : ℚ) * 100)

/-- The category string the source stores in the dicts. -/
def catName : Category → String
  | .math => "math"
  | .code => "code"
  | .json => "json"
  | .writing => "writing"
  | .general => "general"

/-- The `per_category` object of `main`'s summary: per observed category,
`{accuracy_percent, correct, total}` with the `if stats["total"] else 0`
division guard. -/
def perCategoryJson (stats : List (Category × Nat × Nat)) :
    List (String × JVal) :=
  stats.map (fun e =>
    (catName e.1,
     JVal.obj
       [("accuracy_percent",
         JVal.q (if e.2.1 ≠ 0 then accuracyPercent e.2.2 e.2.1 else 0)),
        ("correct", JVal.n e.2.2),
        ("total", JVal.n e.2.1)]))

/-- The `summary` dict of `correctness_checkers.main` (lines 124-137),
persisted as `correctness_summary.json`. -/
def buildSummary (csvName : String) (rows : List (String × String)) : JVal :=
  JVal.obj
    [("file", JVal.s csvName),
     ("total", JVal.n rows.length),
     ("correct", JVal.n (runAgg rows).correct),
     ("accuracy_percent",
      JVal.q (accuracyPercent (runAgg rows).correct rows.length)),
     ("per_category", JVal.obj (perCategoryJson (runAgg rows).stats))]

/-- The `cat_summary` dict of `model_runner_baseline.py` (lines 170-180),
persisted as that run's `correctness_summary.json`: only
`overall_accuracy` and `per_category`, no division guard per category. -/
def cat_summary (rows : List (String × String)) : JVal :=
  JVal.obj
    [("overall_accuracy",
      JVal.q (accuracyPercent (runAgg rows).correct rows.length)),
     ("per_category",
      JVal.obj ((runAgg rows).stats.map (fun e =>
        (catName e.1,
         JVal.obj
           [("accuracy_percent", JVal.q (accuracyPercent e.2.2 e.2.1)),
            ("correct", JVal.n e.2.2),
            ("total", JVal.n e.2.1)]))))]

/-- Top-level field names of an object value. -/
def topKeys : JVal → List String
  | .obj fields => fields.map (fun f => f.1)
  | _ => []

/-- Top-level field lookup in an object value. -/
def getField : JVal → String → Option JVal
  | .obj fields, k =>
    match fields.find? (fun f => f.1 = k) with
    | some f => some f.2
    | none => none
  | _, _ => none

/-! ### Specification-side definitions

These restate the spec's wording (not the source) and are compared with
the embedded source functions in the claim theorems. -/

/-- The string contains at least one of the given keywords. -/
def containsAny (p : String) (keywords : List String) : Bool :=
  keywords.any (fun k => strContains p k)

/-- Classification as the spec words it: first-match-wins over the
ordered keyword rules, applied to the lower-cased prompt. -/
def classifySpec (prompt : String) : Category :=
  if containsAny (pyLower prompt) ["derivative", "integral", "solve"] then .math
  else if containsAny (pyLower prompt) ["python", "code", "function"] then .code
  else if containsAny (pyLower prompt) ["json", "object", "key"] then .json
  else if containsAny (pyLower prompt) ["story", "write", "poem"] then .writing
  else .general

/-- The math predicate as the spec words it: the lower-cased, trimmed
output contains one of the literal tokens, or contains a character of the
class `[0-9+\-*/=]`. -/
def mathCorrectSpec (output : String) : Bool :=
  (["x", "y", "=", "dx", "dy", "6x", "2x"].any
    (fun sym => strContains (pyStrip (pyLower output)) sym)) ||
  (pyStrip (pyLower output)).toList.any (fun c =>
    c.isDigit || c = '+' || c = '-' || c = '*' || c = '/' || c = '=')

/-- The writing predicate as the spec words it: the lower-cased output
has strictly more than 10 whitespace-delimited words and contains a
literal period. -/
def writingCorrectSpec (output : String) : Bool :=
  decide ((pySplit (pyLower output)).length > 10) &&
  strContains (pyLower output) "."

/-- The general predicate as claimed: the trimmed, lower-cased output has
length above 5 and shares a whitespace-delimited token with the first
three whitespace-delimited tokens of the lower-cased prompt. -/
def generalSharesToken (prompt output : String) : Bool :=
  decide ((pyStrip (pyLower output)).length > 5) &&
  (pySplit (pyStrip (pyLower output))).any
    (fun t => ((pySplit (pyLower prompt)).take 3).contains t)

/-! ### Shared lemmas about the string primitives -/

theorem containsSub_singleton (c : Char) (l : List Char) :
    containsSub [c] l = true ↔ c ∈ l := by
  induction l with
  | nil => simp [containsSub, leadsWith]
  | cons h t ih =>
    simp [containsSub, leadsWith, ih]

theorem mem_dropWhile_of_not {p : Char → Bool} {c : Char}
    (hc : ¬ p c = true) : ∀ l : List Char, c ∈ l → c ∈ l.dropWhile p
  | h :: t, hl => by
    by_cases hp : p h = true
    · rw [List.dropWhile_cons_of_pos hp]
      rcases List.mem_cons.mp hl with rfl | hm
      · exact absurd hp hc
      · exact mem_dropWhile_of_not hc t hm
    · rw [List.dropWhile_cons_of_neg hp]
      exact hl

theorem mem_stripList {c : Char} (hc : ¬ pyIsSpace c = true)
    (l : List Char) : c ∈ stripList l ↔ c ∈ l := by
  unfold stripList
  constructor
  · intro h
    have h1 := (List.dropWhile_sublist pyIsSpace).subset (List.mem_reverse.mp h)
    exact (List.dropWhile_sublist pyIsSpace).subset (List.mem_reverse.mp h1)
  · intro h
    refine List.mem_reverse.mpr ?_
    refine mem_dropWhile_of_not hc _ ?_
    exact List.mem_reverse.mpr (mem_dropWhile_of_not hc _ h)

theorem strContains_dot_strip (s : String) :
    strContains (pyStrip s) "." = strContains s "." := by
  refine Bool.eq_iff_iff.mpr ?_
  show containsSub ['.'] (stripList s.toList) = true ↔
    containsSub ['.'] s.toList = true
  rw [containsSub_singleton, containsSub_singleton,
    mem_stripList (by decide)]

theorem splitAux_dropWhile (l : List Char) :
    splitAux (l.dropWhile pyIsSpace) [] = splitAux l [] := by
  induction l with
  | nil => rfl
  | cons h t ih =>
    by_cases hp : pyIsSpace h = true
    · rw [List.dropWhile_cons_of_pos hp, ih]
      simp [splitAux, hp]
    · rw [List.dropWhile_cons_of_neg hp]

theorem splitAux_all_ws :
    ∀ (w : List Char), (∀ c ∈ w, pyIsSpace c = true) → ∀ acc,
      splitAux w acc = if acc.isEmpty then [] else [String.mk acc.reverse]
  | [], _, acc => rfl
  | h :: t, hw, acc => by
    have hh : pyIsSpace h = true := hw h (by simp)
    have ht : ∀ c ∈ t, pyIsSpace c = true :=
      fun c hc => hw c (List.mem_cons_of_mem h hc)
    simp only [splitAux, hh, if_true]
    rw [splitAux_all_ws t ht []]
    by_cases ha : acc.isEmpty <;> simp [ha]

theorem splitAux_append_ws (w : List Char)
    (hw : ∀ c ∈ w, pyIsSpace c = true) (l : List Char) :
    ∀ acc, splitAux (l ++ w) acc = splitAux l acc := by
  induction l with
  | nil =>
    intro acc
    rw [List.nil_append, splitAux_all_ws w hw acc]
    rfl
  | cons h t ih =>
    intro acc
    rw [List.cons_append]
    by_cases hp : pyIsSpace h = true
    · by_cases ha : acc.isEmpty
      · simp only [splitAux, hp, ha, if_true]
        exact ih []
      · simp only [splitAux, hp, ha, if_true, if_false]
        rw [ih []]
    · simp only [splitAux, hp, if_false]
      exact ih (h :: acc)

theorem pySplit_strip (s : String) : pySplit (pyStrip s) = pySplit s := by
  show splitAux (stripList s.toList) [] = splitAux s.toList []
  have hdecomp : s.toList.dropWhile pyIsSpace =
      stripList s.toList ++
      ((s.toList.dropWhile pyIsSpace).reverse.takeWhile pyIsSpace).reverse := by
    unfold stripList
    conv_lhs =>
      rw [← List.reverse_reverse (s.toList.dropWhile pyIsSpace),
        ← List.takeWhile_append_dropWhile pyIsSpace
          (s.toList.dropWhile pyIsSpace).reverse]
    rw [List.reverse_append]
  have hw : ∀ c ∈ ((s.toList.dropWhile pyIsSpace).reverse.takeWhile
      pyIsSpace).reverse, pyIsSpace c = true :=
    fun c hc => List.mem_takeWhile_imp (List.mem_reverse.mp hc)
  calc splitAux (stripList s.toList) []
      = splitAux (stripList s.toList ++
          ((s.toList.dropWhile pyIsSpace).reverse.takeWhile
            pyIsSpace).reverse) [] :=
        (splitAux_append_ws _ hw _ []).symm
    _ = splitAux (s.toList.dropWhile pyIsSpace) [] := by rw [← hdecomp]
    _ = splitAux s.toList [] := splitAux_dropWhile s.toList

/-! ### Shared lemmas about the aggregation loop -/

/-- Sum of the per-category `total` counters. -/
def sumTotals (l : List (Category × Nat × Nat)) : Nat :=
  (l.map (fun e => e.2.1)).sum

/-- Sum of the per-category `correct` counters. -/
def sumCorrects (l : List (Category × Nat × Nat)) : Nat :=
  (l.map (fun e => e.2.2)).sum

theorem sumTotals_updateStats (l : List (Category × Nat × Nat))
    (c : Category) (b : Bool) :
    sumTotals (updateStats l c b) = sumTotals l + 1 := by
  induction l with
  | nil => simp [updateStats, sumTotals]
  | cons e rest ih =>
    obtain ⟨k, t, cr⟩ := e
    by_cases hk : k = c <;>
      simp [updateStats, hk, sumTotals] at ih ⊢ <;> omega

theorem sumCorrects_updateStats (l : List (Category × Nat × Nat))
    (c : Category) (b : Bool) :
    sumCorrects (updateStats l c b) =
      sumCorrects l + (if b then 1 else 0) := by
  induction l with
  | nil => cases b <;> simp [updateStats, sumCorrects]
  | cons e rest ih =>
    obtain ⟨k, t, cr⟩ := e
    by_cases hk : k = c <;>
      cases b <;>
        simp [updateStats, hk, sumCorrects] at ih ⊢ <;> omega

theorem countCorrect_cons (r : String × String)
    (rest : List (String × String)) :
    countCorrect (r :: rest) =
      (if (evaluate_row r.1 r.2).correct = true then 1 else 0) +
        countCorrect rest := by
  by_cases hb : (evaluate_row r.1 r.2).correct = true <;>
    simp [countCorrect, List.filter_cons, hb] <;> omega

theorem agg_foldl_invariants (rows : List (String × String)) :
    ∀ a : Agg,
      sumTotals ((rows.foldl stepAgg a).stats) =
        sumTotals a.stats + rows.length ∧
      sumCorrects ((rows.foldl stepAgg a).stats) =
        sumCorrects a.stats + countCorrect rows ∧
      (rows.foldl stepAgg a).correct = a.correct + countCorrect rows := by
  induction rows with
  | nil => intro a; simp [countCorrect]
  | cons r rest ih =>
    intro a
    obtain ⟨h1, h2, h3⟩ := ih (stepAgg a r)
    rw [List.foldl_cons]
    refine ⟨?_, ?_, ?_⟩
    · rw [h1]
      show sumTotals (updateStats a.stats _ _) + rest.length = _
      rw [sumTotals_updateStats]
      simp [List.length_cons]
      omega
    · rw [h2, countCorrect_cons]
      show sumCorrects (updateStats a.stats _ _) + countCorrect rest = _
      rw [sumCorrects_updateStats]
      by_cases hb : (evaluate_row r.1 r.2).correct = true <;>
        simp [hb] <;> omega
    · rw [h3, countCorrect_cons]
      show (if (evaluate_row r.1 r.2).correct = true
        then a.correct + 1 else a.correct) + countCorrect rest = _
      by_cases hb : (evaluate_row r.1 r.2).correct = true <;>
        simp [hb] <;> omega

theorem correct_runAgg (rows : List (String × String)) :
    (runAgg rows).correct = countCorrect rows := by
  have h := (agg_foldl_invariants rows ⟨0, []⟩).2.2
  unfold runAgg
  simpa using h

theorem lookup_updateStats (l : List (Category × Nat × Nat))
    (c' : Category) (b : Bool) (c : Category) :
    lookupStats (updateStats l c' b) c =
      if c' = c then
        match lookupStats l c with
        | none => some (1, if b then 1 else 0)
        | some tc => some (tc.1 + 1, tc.2 + (if b then 1 else 0))
      else lookupStats l c := by
  induction l with
  | nil =>
    by_cases h : c' = c <;> simp [updateStats, lookupStats, h]
  | cons e rest ih =>
    obtain ⟨k, t, cr⟩ := e
    by_cases hk : k = c'
    · subst hk
      by_cases hc : k = c
      · subst hc
        simp [updateStats, lookupStats]
        cases b <;> simp <;> omega
      · simp [updateStats, lookupStats, hc]
    · by_cases hc : k = c
      · subst hc
        have hne : ¬ c' = k := fun h => hk h.symm
        simp [updateStats, lookupStats, hk, hne]
      · simp [updateStats, lookupStats, hk, hc, ih]

theorem catTotal_cons (r : String × String)
    (rest : List (String × String)) (c : Category) :
    catTotal (r :: rest) c =
      (if (evaluate_row r.1 r.2).category = c then 1 else 0) +
        catTotal rest c := by
  by_cases h : (evaluate_row r.1 r.2).category = c <;>
    simp [catTotal, List.filter_cons, h] <;> omega

theorem catCorrect_cons (r : String × String)
    (rest : List (String × String)) (c : Category) :
    catCorrect (r :: rest) c =
      (if ((evaluate_row r.1 r.2).category = c ∧
           (evaluate_row r.1 r.2).correct = true) then 1 else 0) +
        catCorrect rest c := by
  by_cases h : ((evaluate_row r.1 r.2).category = c ∧
      (evaluate_row r.1 r.2).correct = true) <;>
    simp [catCorrect, List.filter_cons, h] <;> omega

theorem lookup_foldl (rows : List (String × String)) :
    ∀ (a : Agg) (c : Category),
      lookupStats ((rows.foldl stepAgg a).stats) c =
        match lookupStats a.stats c with
        | some tc => some (tc.1 + catTotal rows c, tc.2 + catCorrect rows c)
        | none =>
          if catTotal rows c = 0 then none
          else some (catTotal rows c, catCorrect rows c) := by
  induction rows with
  | nil =>
    intro a c
    simp only [List.foldl_nil]
    cases h : lookupStats a.stats c <;> simp [catTotal, catCorrect]
  | cons r rest ih =>
    intro a c
    rw [List.foldl_cons, ih (stepAgg a r) c]
    have hstep : (stepAgg a r).stats =
        updateStats a.stats (evaluate_row r.1 r.2).category
          (evaluate_row r.1 r.2).correct := rfl
    rw [hstep, lookup_updateStats, catTotal_cons, catCorrect_cons]
    by_cases hcat : (evaluate_row r.1 r.2).category = c <;>
      cases hb : (evaluate_row r.1 r.2).correct <;>
        cases h0 : lookupStats a.stats c <;>
          simp [hcat, hb, h0] <;> omega

theorem lookup_runAgg (rows : List (String × String)) (c : Category) :
    lookupStats (runAgg rows).stats c =
      if catTotal rows c = 0 then none
      else some (catTotal rows c, catCorrect rows c) := by
  unfold runAgg
  rw [lookup_foldl rows ⟨0, []⟩ c]
  rfl

/-! ### Claim theorems -/

/-- Claim C1: classification is first-match-wins over the ordered keyword
rules on the lower-cased prompt (math, then code, then json, then
writing, else general); in particular the prompt
"Please write a python function" is classified as code. -/
theorem classify_first_match :
    (∀ p o, (evaluate_row p o).category = classifySpec p) ∧
    (∀ o, (evaluate_row "Please write a python function" o).category =
      Category.code) := by
  have h : ∀ p o, (evaluate_row p o).category = classifySpec p := by
    intro p o
    unfold evaluate_row classifySpec containsAny
    simp only [List.any_cons, List.any_nil, Bool.or_false, Bool.or_assoc]
    split_ifs <;> rfl
  exact ⟨h, fun o => by rw [h]; decide⟩

/-- Claim C2: on a prompt classified as math, the verdict is exactly the
permissive token-or-arithmetic-character predicate on the lower-cased,
trimmed output; in particular `evaluate_row "Solve for x" "42"` is
category math with a correct verdict. -/
theorem math_verdict :
    (∀ p o, (evaluate_row p o).category = Category.math →
      (evaluate_row p o).correct = mathCorrectSpec o) ∧
    evaluate_row "Solve for x" "42" = ⟨Category.math, true, 1⟩ := by
  refine ⟨?_, by decide⟩
  intro p o h
  unfold evaluate_row at h ⊢
  split_ifs at h ⊢
  unfold mathCorrectSpec is_math_expression
  rfl

/-- Claim C2 witness at the concrete input from the spec. -/
theorem math_verdict_witness :
    (evaluate_row "Solve for x" "42").correct = mathCorrectSpec "42" :=
  math_verdict.1 "Solve for x" "42" (by decide)

/-- Claim C3: on a prompt classified as json, the verdict is true exactly
when the trimmed output starts with a brace or bracket and the (modelled)
strict JSON parse succeeds; when it does not start with a brace or
bracket the verdict is false.  The embedded `safe_json_load` is a total
function returning an `Option`, so no exception reaches the caller. -/
theorem json_verdict :
    ∀ p o, (evaluate_row p o).category = Category.json →
      ((evaluate_row p o).correct =
        (looks_like_json o && (safe_json_load o).isSome)) ∧
      (looks_like_json o = false → (evaluate_row p o).correct = false) := by
  intro p o h
  unfold evaluate_row at h ⊢
  split_ifs at h ⊢ <;> simp_all

/-- Claim C3 witness: a json-classified prompt with a valid JSON output. -/
theorem json_verdict_witness :
    (evaluate_row "Return a json object" "[1, 2]").correct =
      (looks_like_json "[1, 2]" && (safe_json_load "[1, 2]").isSome) :=
  (json_verdict "Return a json object" "[1, 2]" (by decide)).1

/-- Claim C9: evaluation is total — for every prompt and output the
result's category is one of the five labels and the verdict is a boolean
(the embedding is a total function, so no input raises). -/
theorem evaluator_total :
    ∀ p o,
      ((evaluate_row p o).category = Category.math ∨
       (evaluate_row p o).category = Category.code ∨
       (evaluate_row p o).category = Category.json ∨
       (evaluate_row p o).category = Category.writing ∨
       (evaluate_row p o).category = Category.general) ∧
      ((evaluate_row p o).correct = true ∨
       (evaluate_row p o).correct = false) := by
  intro p o
  constructor
  · cases h : (evaluate_row p o).category <;> simp
  · cases h : (evaluate_row p o).correct <;> simp

/-- Claim C5: on a prompt classified as writing, the verdict is exactly
"more than 10 whitespace-delimited words and a literal period in the
lower-cased output"; an output of exactly 10 words is judged incorrect
even with a period, and one of 11 words with a period is judged
correct. -/
theorem writing_verdict :
    ∀ p o, (evaluate_row p o).category = Category.writing →
      ((evaluate_row p o).correct = writingCorrectSpec o ∧
       ((pySplit (pyLower o)).length = 10 →
         (evaluate_row p o).correct = false) ∧
       ((pySplit (pyLower o)).length = 11 →
         strContains (pyLower o) "." = true →
         (evaluate_row p o).correct = true)) := by
  intro p o h
  unfold evaluate_row at h ⊢
  split_ifs at h ⊢
  have hcode :
      (decide ((pySplit (pyStrip (pyLower o))).length > 10) &&
        strContains (pyStrip (pyLower o)) ".") = writingCorrectSpec o := by
    unfold writingCorrectSpec
    rw [pySplit_strip, strContains_dot_strip]
  refine ⟨hcode, ?_, ?_⟩
  · intro h10
    show (decide ((pySplit (pyStrip (pyLower o))).length > 10) && _) = false
    rw [pySplit_strip, h10]
    simp
  · intro h11 hdot
    show (decide ((pySplit (pyStrip (pyLower o))).length > 10) &&
      strContains (pyStrip (pyLower o)) ".") = true
    rw [pySplit_strip, strContains_dot_strip, h11, hdot]
    simp

/-- Claim C5 witness: the spec's 11-word writing example is judged
correct. -/
theorem writing_verdict_witness :
    (evaluate_row "Write a story"
      "one two three four five six seven eight nine ten eleven.").correct =
    writingCorrectSpec
      "one two three four five six seven eight nine ten eleven." :=
  (writing_verdict "Write a story"
    "one two three four five six seven eight nine ten eleven."
    (by decide)).1

/-- Claim C4 counterexample: for the general-category prompt "a b c" and
output "banana", the code judges the output correct (the prompt token "a"
occurs as a substring of "banana"), yet the output shares no
whitespace-delimited token with the first three prompt tokens, so the
claimed token-sharing biconditional fails at this input. -/
theorem general_verdict_counterexample :
    (evaluate_row "a b c" "banana").category = Category.general ∧
    (evaluate_row "a b c" "banana").correct = true ∧
    generalSharesToken "a b c" "banana" = false := by
  refine ⟨by decide, by decide, by decide⟩

/-- Claim C4 as amended: on a prompt classified as general, the verdict
is true exactly when the trimmed, lower-cased output has length above 5
and at least one of the first three whitespace-delimited tokens of the
lower-cased prompt occurs as a contiguous substring of that output (not
necessarily as a whole token of the output). -/
theorem general_verdict_amended :
    ∀ p o, (evaluate_row p o).category = Category.general →
      ((evaluate_row p o).correct = true ↔
        ((pyStrip (pyLower o)).length > 5 ∧
         ∃ w ∈ (pySplit (pyLower p)).take 3,
           strContains (pyStrip (pyLower o)) w = true)) := by
  intro p o h
  unfold evaluate_row at h ⊢
  split_ifs at h ⊢
  show (decide ((pyStrip (pyLower o)).length > 5) && _) = true ↔ _
  simp [List.any_eq_true]

/-- Claim C4 witness for the amended statement, at a concrete
general-category input. -/
theorem general_verdict_amended_witness :
    (evaluate_row "hello there friend" "hello world").correct = true ↔
      ((pyStrip (pyLower "hello world")).length > 5 ∧
       ∃ w ∈ (pySplit (pyLower "hello there friend")).take 3,
         strContains (pyStrip (pyLower "hello world")) w = true) :=
  general_verdict_amended "hello there friend" "hello world" (by decide)

/-- Claim C10: an empty output is judged incorrect under every prompt,
in every category. -/
theorem empty_output_incorrect :
    ∀ p, (evaluate_row p "").correct = false := by
  intro p
  unfold evaluate_row
  split_ifs <;> rfl

/-- Claim C6: for a non-empty run, the summary's `total` field is the
row count, the per-category totals sum to the row count, and the
per-category correct counters sum to the global correct counter. -/
theorem aggregation_invariant (name : String)
    (rows : List (String × String)) (h : rows ≠ []) :
    getField (buildSummary name rows) "total" =
      some (JVal.n rows.length) ∧
    sumTotals (runAgg rows).stats = rows.length ∧
    sumCorrects (runAgg rows).stats = (runAgg rows).correct := by
  obtain ⟨h1, h2, h3⟩ := agg_foldl_invariants rows ⟨0, []⟩
  refine ⟨rfl, ?_, ?_⟩
  · unfold runAgg
    rw [h1]
    simp [sumTotals]
  · unfold runAgg
    rw [h2, h3]
    simp [sumCorrects]

/-- Claim C6 witness at a one-row run. -/
theorem aggregation_invariant_witness :
    getField (buildSummary "outputs.csv" [("Solve", "2x")]) "total" =
      some (JVal.n ([("Solve", "2x")] : List (String × String)).length) ∧
    sumTotals (runAgg [("Solve", "2x")]).stats =
      ([("Solve", "2x")] : List (String × String)).length ∧
    sumCorrects (runAgg [("Solve", "2x")]).stats =
      (runAgg [("Solve", "2x")]).correct :=
  aggregation_invariant "outputs.csv" [("Solve", "2x")] (by decide)

/-- Claim C7: folding two permuted result sequences into the aggregator
yields the same length, the same global correct counter, and the same
per-category statistics viewed as a mapping (dict lookup), insertion
order aside. -/
theorem accumulation_perm_invariant (r1 r2 : List (String × String))
    (h : r1.Perm r2) :
    r1.length = r2.length ∧
    (runAgg r1).correct = (runAgg r2).correct ∧
    ∀ c, lookupStats (runAgg r1).stats c =
      lookupStats (runAgg r2).stats c := by
  have hT : ∀ c, catTotal r1 c = catTotal r2 c :=
    fun c => (h.filter _).length_eq
  have hC : ∀ c, catCorrect r1 c = catCorrect r2 c :=
    fun c => (h.filter _).length_eq
  refine ⟨h.length_eq, ?_, ?_⟩
  · rw [correct_runAgg, correct_runAgg]
    exact (h.filter _).length_eq
  · intro c
    rw [lookup_runAgg, lookup_runAgg, hT c, hC c]

/-- Claim C7 witness: swapping two concrete rows leaves the global
correct counter unchanged. -/
theorem accumulation_perm_invariant_witness :
    (runAgg [("a", "b"), ("Solve", "2x")]).correct =
      (runAgg [("Solve", "2x"), ("a", "b")]).correct :=
  (accumulation_perm_invariant _ _
    (List.Perm.swap ("Solve", "2x") ("a", "b") [])).2.1

/-- Claim C8 counterexample: the `correctness_summary.json` persisted by
`model_runner_baseline.py` for a concrete one-row run has exactly the
top-level fields `overall_accuracy` and `per_category` — it has no
`file`, `total`, `correct` or `accuracy_percent` field, so the claimed
field list does not hold for every run that persists
`correctness_summary.json`. -/
theorem report_fields_counterexample :
    topKeys (cat_summary [("hi", "there")]) =
      ["overall_accuracy", "per_category"] ∧
    getField (cat_summary [("hi", "there")]) "file" = none ∧
    getField (cat_summary [("hi", "there")]) "total" = none ∧
    getField (cat_summary [("hi", "there")]) "correct" = none ∧
    getField (cat_summary [("hi", "there")]) "accuracy_percent" = none :=
  ⟨rfl, rfl, rfl, rfl, rfl⟩

/-- Claim C8 as amended: the summary persisted by
`correctness_checkers.py` for a non-empty run has exactly the fields
`file`, `total`, `correct`, `accuracy_percent` (computed as
`round(correct / total * 100, 2)`) and `per_category`, whose entries are
the observed category labels, each mapped to an object with exactly the
fields `accuracy_percent`, `correct`, `total`; the baseline runner's
`correctness_summary.json` instead carries only `overall_accuracy` and
`per_category`. -/
theorem report_fields_amended (name : String)
    (rows : List (String × String)) (h : rows ≠ []) :
    topKeys (buildSummary name rows) =
      ["file", "total", "correct", "accuracy_percent", "per_category"] ∧
    getField (buildSummary name rows) "file" = some (JVal.s name) ∧
    getField (buildSummary name rows) "accuracy_percent" =
      some (JVal.q
        (accuracyPercent (runAgg rows).correct rows.length)) ∧
    topKeys (JVal.obj (perCategoryJson (runAgg rows).stats)) =
      (runAgg rows).stats.map (fun e => catName e.1) ∧
    (∀ kv ∈ perCategoryJson (runAgg rows).stats,
      topKeys kv.2 = ["accuracy_percent", "correct", "total"]) := by
  refine ⟨rfl, rfl, rfl, ?_, ?_⟩
  · show (perCategoryJson (runAgg rows).stats).map (fun f => f.1) = _
    unfold perCategoryJson
    rw [List.map_map]
    rfl
  · intro kv hkv
    unfold perCategoryJson at hkv
    obtain ⟨e, he, rfl⟩ := List.mem_map.mp hkv
    rfl

/-- Claim C8 witness for the amended statement, at a concrete one-row
run. -/
theorem report_fields_amended_witness :
    getField (buildSummary "outputs.csv" [("hi", "there")])
        "accuracy_percent" =
      some (JVal.q (accuracyPercent
        (runAgg [("hi", "there")]).correct
        ([("hi", "there")] : List (String × String)).length)) :=
  (report_fields_amended "outputs.csv" [("hi", "there")] (by decide)).2.2.1

end Checkers
